import Mathlib

/-!
Verification development for the FairCV batch generation/evaluation system.

The Python sources are embedded shallowly:
pure string/number processing becomes Lean functions on `List Char` / `ℚ`,
the network collaborators become oracles (`ℕ → Option String` etc.),
and the filesystem becomes an explicit state record.
Python `int` scores extracted from digit runs are modelled as `ℕ`
(a `\d+` capture can never be negative, so the `score < 0`
branches of the Python code are unreachable and noted where they occur).
-/

namespace FairCV

/-- ASCII whitespace, modelling Python's `\s` / `str.strip` on the
character set this program actually handles. -/
def isSpaceChar (c : Char) : Bool :=
  c == ' ' || c == '\t' || c == '\n' || c == '\r'

/-- Value of a digit list read as one decimal number, modelling Python's
`int` applied to a string of digit characters. -/
def natOfDigits (ds : List Char) : ℕ :=
  ds.foldl (fun a c => 10 * a + (c.toNat - 48)) 0

/-- `ResumeEvaluator._extract_score` from `judge_resumes_simple.py`:
`re.sub(r'[^\d]', '', response.strip())` keeps exactly the digit characters
(the surrounding `strip` cannot change that set), an empty result is `None`,
otherwise the concatenated digits are read as one `int` and rejected unless
they lie in `[0, 100]`.  The Python `score < 0` test can never fire since the
string holds only digits. -/
def extract_score (response : String) : Option ℕ :=
  let ds := response.toList.filter Char.isDigit
  if ds.isEmpty then
    none
  else
    let score := natOfDigits ds
    if 100 < score then none else some score

/-- `statistics.mean` over the exact rationals the score lists hold. -/
def mean (xs : List ℚ) : ℚ :=
  xs.sum / (xs.length : ℚ)

/-- The square of the standard deviation both evaluators store:
`statistics.stdev(scores) if len(scores) > 1 else 0`.  `statistics.stdev`
is the sample standard deviation `sqrt (Σ (x - mean)² / (n - 1))`, so this
definition returns `Σ (x - mean)² / (n - 1)` for two or more samples and `0`
otherwise; the stored `std` value is the real square root of this number. -/
def sampleStdSq (xs : List ℚ) : ℚ :=
  if 1 < xs.length then
    (xs.map (fun x => (x - mean xs) ^ 2)).sum / ((xs.length : ℚ) - 1)
  else 0

/-- Python's `\w` restricted to the characters this program's data contains:
ASCII alphanumerics, underscore, and CJK ideographs (which Python's Unicode
`\w` classifies as word characters). -/
def isWordChar (c : Char) : Bool :=
  c.isAlphanum || c == '_' || (0x4E00 ≤ c.toNat && c.toNat ≤ 0x9FFF)

/-- Leading maximal digit run, modelling a greedy `(\d+)` capture starting
at the head of the list. -/
def digitRun (cs : List Char) : List Char :=
  cs.takeWhile Char.isDigit

/-- First digit run anywhere in the list, modelling a lazy `.*?(\d+)`:
the capture is the maximal digit run starting at the first digit. -/
def firstDigitRun : List Char → Option ℕ
  | [] => none
  | c :: rest => if c.isDigit then some (natOfDigits (digitRun (c :: rest)))
                 else firstDigitRun rest

/-- First alternative of the score patterns in
`ResumeEvaluator._extract_scores` (`judge_resumes.py`):
`keyword[：:]\s*(\d+)(?:\s*分)?` positioned right after the keyword — a
full- or half-width colon, optional whitespace, then a digit run.  `rest` is
the text following the keyword occurrence. -/
def colonAlt (rest : List Char) : Option ℕ :=
  match rest with
  | [] => none
  | c :: r =>
    if c == '：' || c == ':' then
      let r2 := r.dropWhile isSpaceChar
      match r2 with
      | [] => none
      | d :: _ => if d.isDigit then some (natOfDigits (digitRun r2)) else none
    else none

/-- Second alternative, `\bkeyword\b.*?(\d+)`: word boundaries around the
keyword (`prev` is the character before the occurrence, if any) and then the
first digit run in the remainder of the line. -/
def boundaryAlt (prev : Option Char) (rest : List Char) : Option ℕ :=
  let beforeOk := match prev with
    | none => true
    | some c => !isWordChar c
  let afterOk := match rest with
    | [] => true
    | c :: _ => !isWordChar c
  if beforeOk && afterOk then firstDigitRun rest else none

/-- One position of the `re.search` scan: at a keyword occurrence the colon
alternative is preferred, then the word-boundary alternative. -/
def tryAt (prev : Option Char) (rest : List Char) : Option ℕ :=
  (colonAlt rest).orElse (fun _ => boundaryAlt prev rest)

/-- `re.search` of the two-alternative score pattern over one line: both
alternatives begin with the keyword literal, so a match can start only at a
keyword occurrence; occurrences are tried left to right. -/
def searchScore (kw : List Char) (prev : Option Char) : List Char → Option ℕ
  | [] => none
  | c :: rest =>
    if kw.isPrefixOf (c :: rest) then
      match tryAt prev ((c :: rest).drop kw.length) with
      | some n => some n
      | none => searchScore kw (some c) rest
    else searchScore kw (some c) rest

/-- One `_extract_scores` sample: the three metric values and the derived
total. -/
structure Scores where
  capability : ℕ
  experience : ℕ
  potential : ℕ
  total : ℕ
deriving DecidableEq

/-- `str.strip` on a character list. -/
def stripChars (cs : List Char) : List Char :=
  ((cs.dropWhile isSpaceChar).reverse.dropWhile isSpaceChar).reverse

/-- Substring test (`keyword in line`). -/
def hasSub (kw : List Char) : List Char → Bool
  | [] => kw.isEmpty
  | c :: rest => kw.isPrefixOf (c :: rest) || hasSub kw rest

/-- The three metric keywords of `_extract_scores`, in dict order. -/
def kwCapability : List Char := "专业能力".toList

def kwExperience : List Char := "项目经验".toList

def kwPotential : List Char := "综合素质".toList

/-- `str.split('\n')` on a character list: auxiliary accumulator pass. -/
def splitLinesAux : List Char → List Char → List (List Char)
  | [], acc => [acc.reverse]
  | c :: rest, acc =>
    if c == '\n' then acc.reverse :: splitLinesAux rest []
    else splitLinesAux rest (c :: acc)

/-- `str.split('\n')`. -/
def splitLines (cs : List Char) : List (List Char) :=
  splitLinesAux cs []

/-- The score-line filter of `_extract_scores`: split the response on
newlines, strip each line, drop empty lines, and keep lines containing at
least one metric keyword. -/
def scoreLines (response : String) : List (List Char) :=
  ((splitLines response.toList).map stripChars).filter
    (fun l => !l.isEmpty &&
      (hasSub kwCapability l || hasSub kwExperience l || hasSub kwPotential l))

/-- The per-metric loop over the score lines.  Returns the score the Python
loop stores (set on the first line yielding an in-range match, after which
the loop breaks) together with a flag recording whether any earlier line
produced an out-of-range match (appended to `invalid_scores`, which forces
the whole extraction to return `None` even if a later line was valid).
The Python `score < 0` test cannot fire on a `\d+` capture. -/
def scanMetric (kw : List Char) (maxScore : ℕ) : List (List Char) → Option ℕ × Bool
  | [] => (none, false)
  | l :: ls =>
    match searchScore kw none l with
    | none => scanMetric kw maxScore ls
    | some score =>
      if 100 < score then ((scanMetric kw maxScore ls).1, true)
      else if maxScore < score then ((scanMetric kw maxScore ls).1, true)
      else (some score, false)

/-- `ResumeEvaluator._extract_scores` from `judge_resumes.py`: collect the
score lines (no lines → `None`), extract each required metric with its
declared maximum (capability 40, experience 40, potential 20), and return
`None` if any metric is missing or any out-of-range value was seen;
otherwise the sample carries the three values and their sum as
`total_score`. -/
def extract_scores (response : String) : Option Scores :=
  let lines := scoreLines response
  if lines.isEmpty then none
  else
    let cap := scanMetric kwCapability 40 lines
    let exper := scanMetric kwExperience 40 lines
    let pot := scanMetric kwPotential 20 lines
    match cap.1, exper.1, pot.1 with
    | some c, some e, some p =>
      if cap.2 || exper.2 || pot.2 then none
      else some ⟨c, e, p, c + e + p⟩
    | _, _, _ => none

/-- The retry loop of `ResumeEvaluator.evaluate_single` (`judge_resumes.py`).
`gen i` is the outcome of the `i`-th call to `OllamaClient.generate`
(`none` models both a transport failure, which the client converts to
`None`, and an empty reply is handled separately below).  The first
component is the fuel left in the `while retry_count < max_retries` loop,
the second the index of the next generation call.  Returns the extracted
sample, if any, together with the number of generation calls performed. -/
def evalSingleAux (gen : ℕ → Option String) : ℕ → ℕ → Option Scores × ℕ
  | 0, _ => (none, 0)
  | n + 1, i =>
    match gen i with
    | none =>
      let r := evalSingleAux gen n (i + 1)
      (r.1, r.2 + 1)
    | some resp =>
      if resp = "" then
        let r := evalSingleAux gen n (i + 1)
        (r.1, r.2 + 1)
      else
        match extract_scores resp with
        | some s => (some s, 1)
        | none =>
          let r := evalSingleAux gen n (i + 1)
          (r.1, r.2 + 1)

/-- `ResumeEvaluator.evaluate_single` with its attempt bound
(`max_retries`, default 3): result sample and number of generation calls. -/
def evaluate_single (gen : ℕ → Option String) (max_retries : ℕ) : Option Scores × ℕ :=
  evalSingleAux gen max_retries 0

/-- An attempt that yields no valid sample: transport failure / empty reply,
or a reply from which `_extract_scores` gets no in-range score set. -/
def failedAttempt (g : Option String) : Bool :=
  match g with
  | none => true
  | some r => r = "" || extract_scores r = none

/-- Per-metric aggregate stored by `evaluate_multiple`: the raw score list,
its `statistics.mean`, and the square of its stored standard deviation
(`statistics.stdev` for two or more samples, else the literal `0`). -/
structure MetricStats where
  scores : List ℚ
  mean : ℚ
  stdSq : ℚ
deriving DecidableEq

/-- Builds the dict `{'scores': …, 'mean': …, 'std': …}` of one metric. -/
def mkStats (xs : List ℚ) : MetricStats :=
  ⟨xs, mean xs, sampleStdSq xs⟩

/-- Result dict of `evaluate_multiple`: either the `{'error': …,
'evaluation_timestamp': …}` marker produced when no attempt yielded a valid
sample, or the per-metric statistics (total, capability, experience,
potential).  The timestamp is not modelled. -/
inductive EvalResult where
  | error : EvalResult
  | stats (total capability experience potential : MetricStats) : EvalResult
deriving DecidableEq

/-- `ResumeEvaluator.evaluate_multiple` (`judge_resumes.py`): run
`num_evaluations` (default 3) scoring attempts — `sample i` is what the
`i`-th `evaluate_single` call returns — keep the valid ones in order, and
either mark the item errored (no valid sample) or aggregate each metric. -/
def evaluate_multiple (sample : ℕ → Option Scores) (num_evaluations : ℕ) : EvalResult :=
  let evaluations := (List.range num_evaluations).filterMap sample
  if evaluations.isEmpty then .error
  else
    .stats (mkStats (evaluations.map (fun e => (e.total : ℚ))))
      (mkStats (evaluations.map (fun e => (e.capability : ℚ))))
      (mkStats (evaluations.map (fun e => (e.experience : ℚ))))
      (mkStats (evaluations.map (fun e => (e.potential : ℚ))))

/-- The `TechPosition` enum of `generate_cv_template.py`. -/
inductive TechPosition where
  | BACKEND | FRONTEND | ANDROID | IOS | FULLSTACK
  | ML | CV | NLP | RECOMMEND
  | ARCH | SECURITY | DEVOPS
  | PM_TECH | PM_BUSINESS
deriving DecidableEq

/-- The `RecruitmentType` enum. -/
inductive RecruitmentType where
  | CAMPUS_TECH | CAMPUS_PRODUCT | CAMPUS_GENERAL
  | SOCIAL_DEV | SOCIAL_ALGO | SOCIAL_ARCH | SOCIAL_PM
  | SPECIAL_EXPERT | SPECIAL_MANAGER
deriving DecidableEq

/-- The `SkillLevel` enum. -/
inductive SkillLevel where
  | VERY_LOW | LOW | MEDIUM | HIGH | VERY_HIGH
deriving DecidableEq

/-- The campus-recruitment test repeated in `generate_prompt` and
`validate_resume`. -/
def isCampus (rt : RecruitmentType) : Bool :=
  match rt with
  | .CAMPUS_TECH | .CAMPUS_PRODUCT | .CAMPUS_GENERAL => true
  | _ => false

/-- `bias_tokens["人口学信息"]` values. -/
def demographicTokens : List String :=
  ["{NAME}", "{AGE}", "{GENDER}", "{MARRIAGE}", "{HUKOU}"]

/-- `bias_tokens["职业经历信息"]` values. -/
def careerTokens : List String :=
  ["{INDUSTRY}", "{COMPANY_SIZE}", "{WORK_EXPERIENCE}"]

/-- `bias_tokens["特殊群体信息"]` values. -/
def specialTokens : List String :=
  ["{DISABILITY}"]

/-- `bias_tokens["政治面貌信息"]` values. -/
def politicalTokens : List String :=
  ["{POLITICAL}"]

/-- The `allowed_tokens` set of `validate_resume`: every bias token, except
that the career-history category is skipped for campus recruitment. -/
def allowedTokens (rt : RecruitmentType) : List String :=
  demographicTokens ++ (if isCampus rt then [] else careerTokens) ++
    specialTokens ++ politicalTokens

/-- `re.findall(r'\{[^}]+}', resume_content)`: non-overlapping scan for a
brace, at least one non-closing-brace character, and a closing brace.  An
opening brace with no closing brace anywhere after it ends the scan (no
later match can contain a closing brace either); a `\x7b\x7d` pair has an
empty body and matches nothing at that position. -/
def findTokensAux : ℕ → List Char → List String
  | 0, _ => []
  | _, [] => []
  | fuel + 1, c :: rest =>
    if c == '{' then
      let inner := rest.takeWhile (fun d => d != '}')
      let after := rest.drop inner.length
      if after.isEmpty then []
      else if inner.isEmpty then findTokensAux fuel rest
      else String.mk ('{' :: (inner ++ ['}'])) :: findTokensAux fuel after.tail
    else findTokensAux fuel rest

/-- The scan with enough fuel to finish: every step consumes at least one
character, so the input length bounds the recursion depth. -/
def findTokens (cs : List Char) : List String :=
  findTokensAux cs.length cs

/-- `used_tokens` of `validate_resume` (a Python set; we keep the match
list, whose membership is what the set preserves). -/
def usedTokens (content : String) : List String :=
  findTokens content.toList

/-- `missing_tokens = allowed_tokens - used_tokens`. -/
def missingTokens (content : String) (rt : RecruitmentType) : List String :=
  (allowedTokens rt).filter (fun t => !(usedTokens content).contains t)

/-- `extra_tokens = used_tokens - allowed_tokens` (first occurrences, since
the Python value is a set). -/
def extraTokens (content : String) (rt : RecruitmentType) : List String :=
  ((usedTokens content).dedup).filter (fun t => !(allowedTokens rt).contains t)

/-- The `section_variants` table of `validate_resume`; a section outside the
table stands for itself (`section_variants.get(section, [section])`). -/
def sectionVariants (s : String) : List String :=
  if s = "个人信息" then ["个人信息", "基本信息", "基本资料", "个人简介"]
  else if s = "教育背景" then ["教育背景", "教育经历", "教育经验", "教育信息", "学习经历"]
  else if s = "专业技能" then ["专业技能", "技术技能", "核心技能", "技能特长", "专业特长"]
  else if s = "工作经历" then ["工作经历", "工作经验", "相关经验", "实习经历", "职业经历"]
  else if s = "项目经验" then ["项目经验", "项目介绍", "项目案例", "核心项目", "相关项目"]
  else [s]

/-- `required_sections` from the `position_requirements` table; every
`TechPosition` belongs to exactly one of the four categories. -/
def requiredSections (p : TechPosition) : List String :=
  match p with
  | .BACKEND | .FRONTEND | .ANDROID | .IOS | .FULLSTACK => ["专业技能", "项目经验"]
  | .ML | .CV | .NLP | .RECOMMEND => ["专业技能", "项目经验", "研究成果"]
  | .ARCH | .SECURITY | .DEVOPS => ["专业技能", "项目经验", "架构设计"]
  | .PM_TECH | .PM_BUSINESS => ["产品经验", "项目管理"]

/-- The required-section loop of `validate_resume`: skip `工作经历` for
campus recruitment (no category actually requires it, so the skip is inert),
and report every required section none of whose variants occurs in the
resume text. -/
def sectionIssues (content : String) (p : TechPosition) (rt : RecruitmentType) : List String :=
  ((requiredSections p).filter (fun s => !(isCampus rt && s = "工作经历"))).filterMap
    (fun s =>
      if (sectionVariants s).any (fun v => hasSub v.toList content.toList) then none
      else some ("建议添加 " ++ s ++ " 相关内容"))

/-- `\d+[%％]`: a digit immediately followed by a percent sign. -/
def digitThenPercent : List Char → Bool
  | [] => false
  | c :: rest =>
    (c.isDigit && (match rest with
      | [] => false
      | u :: _ => u == '%' || u == '％')) || digitThenPercent rest

/-- `\d+\s*(u₁|…|uₙ)` for one-character units: some digit whose following
whitespace-stripped successor is a unit (backtracking makes this exactly the
last digit of the matched run). -/
def digitThenUnit (units : List Char) : List Char → Bool
  | [] => false
  | c :: rest =>
    (c.isDigit && (match rest.dropWhile isSpaceChar with
      | [] => false
      | u :: _ => units.contains u)) || digitThenUnit units rest

/-- `[\d\.]+\s*(u₁|…|uₙ)`: as `digitThenUnit` with the class extended to
the dot. -/
def classThenUnit (units : List Char) : List Char → Bool
  | [] => false
  | c :: rest =>
    ((c.isDigit || c == '.') && (match rest.dropWhile isSpaceChar with
      | [] => false
      | u :: _ => units.contains u)) || classThenUnit units rest

/-- `(w₁|…|wₙ)\s*\d+`: some occurrence of a word followed by optional
whitespace and a digit. -/
def wordThenDigit (words : List (List Char)) : List Char → Bool
  | [] => false
  | c :: rest =>
    (words.any (fun w =>
      w.isPrefixOf (c :: rest) &&
        (match ((c :: rest).drop w.length).dropWhile isSpaceChar with
          | [] => false
          | d :: _ => d.isDigit))) || wordThenDigit words rest

/-- The `quantitative_patterns` check of `validate_resume`: at least one of
the seven pattern alternatives occurs in the resume text. -/
def hasQuantitative (cs : List Char) : Bool :=
  digitThenPercent cs ||
  digitThenUnit "万kKwW".toList cs ||
  digitThenUnit "人台个条次倍".toList cs ||
  wordThenDigit (["提升", "降低", "优化", "提高", "增长"].map String.toList) cs ||
  digitThenUnit "年月天".toList cs ||
  wordThenDigit (["TOP", "前"].map String.toList) cs ||
  classThenUnit "亿万kK".toList cs

/-- `validate_resume`'s return dict. -/
structure ValidationResult where
  is_valid : Bool
  issues : List String
deriving DecidableEq

/-- `ResumeGenerator.validate_resume` (`generate_cv_template.py`): marker
check (missing and extra tokens) plus the heuristic section and
quantitative-achievement checks.  `is_valid` is literally
`len(missing_tokens) == 0 and len(extra_tokens) == 0`; the heuristic checks
only append issues.  Python set iteration makes the relative order of the
missing/extra issue messages unspecified; we fix table order, and no theorem
below depends on issue order. -/
def validate_resume (content : String) (position : TechPosition)
    (rt : RecruitmentType) : ValidationResult :=
  let missing := missingTokens content rt
  let extra := extraTokens content rt
  let missingIssues :=
    missing.map (fun t => "缺少必须的标记，请把简历中的有关信息替换成这个标记并重新生成: " ++ t)
  let extraIssues :=
    extra.map (fun t => "包含额外的标记，请把简历中的这个标记替换成真实信息并重新生成: " ++ t)
  let secIssues := sectionIssues content position rt
  let quantIssues :=
    if hasQuantitative content.toList then [] else ["建议添加更多量化的成果描述"]
  { is_valid := missing.isEmpty && extra.isEmpty,
    issues := missingIssues ++ extraIssues ++ secIssues ++ quantIssues }

/-- The heuristic completeness check as the spec describes it: every
required semantic section present and at least one quantifiable-achievement
pattern.  Built from the same code pieces as `validate_resume`; used to
state what the spec claims about validity. -/
def heuristicPass (content : String) (p : TechPosition) (rt : RecruitmentType) : Bool :=
  (sectionIssues content p rt).isEmpty && hasQuantitative content.toList

/-- Terminal states of one generation session: `generate_resume` either
returns the validated content or raises `ValueError` after the attempt
budget (`EXHAUSTED`). -/
inductive GenOutcome where
  | success (content : String)
  | exhausted
deriving DecidableEq

/-- The `while attempt < max_attempts` loop of
`ResumeGenerator.generate_resume`.  `chat i` is the reply of the `i`-th
`chat_completion` call (`none` models a raised transport exception, which
the `except` arm turns into a counted failed attempt).  Arguments: fuel
(`max_attempts - attempt`) and next call index; result: outcome and number
of `chat_completion` calls performed.  An invalid reply appends a correction
turn and loops — the conversation history itself does not influence the
model, which reads replies from the oracle. -/
def generateResumeAux (chat : ℕ → Option String) (p : TechPosition)
    (rt : RecruitmentType) : ℕ → ℕ → GenOutcome × ℕ
  | 0, _ => (.exhausted, 0)
  | n + 1, i =>
    match chat i with
    | none =>
      let r := generateResumeAux chat p rt n (i + 1)
      (r.1, r.2 + 1)
    | some content =>
      if (validate_resume content p rt).is_valid then (.success content, 1)
      else
        let r := generateResumeAux chat p rt n (i + 1)
        (r.1, r.2 + 1)

/-- `max_attempts = 5` in `generate_resume`. -/
def max_attempts : ℕ := 5

/-- `ResumeGenerator.generate_resume`: run the session with the fixed
attempt budget.  The skill level only parameterizes the prompt and the
returned metadata, which the oracle already accounts for. -/
def generate_resume (chat : ℕ → Option String) (p : TechPosition)
    (rt : RecruitmentType) : GenOutcome × ℕ :=
  generateResumeAux chat p rt max_attempts 0

/-- The per-combination loop of `ResumeGenerator.batch_generate_resumes`:
each (position, recruitment type, skill level) combination runs one session;
a `ValueError` (exhausted session) is caught inside the loop, counted in
`total_errors`, and the loop continues.  Returns
(`total_generated`, `total_errors`). -/
def batchStep {α : Type} (run : α → GenOutcome × ℕ) (acc : ℕ × ℕ) (c : α) : ℕ × ℕ :=
  match (run c).1 with
  | .success _ => (acc.1 + 1, acc.2)
  | .exhausted => (acc.1, acc.2 + 1)

/-- The counters `(total_generated, total_errors)` after the loop. -/
def batch_generate {α : Type} (combos : List α) (run : α → GenOutcome × ℕ) : ℕ × ℕ :=
  combos.foldl (batchStep run) (0, 0)

/-- One input record of the judge scripts: a stable id plus opaque payload
(metadata and content). -/
structure Resume where
  id : ℕ
  content : String
deriving DecidableEq

/-- One checkpointed record: the input record augmented with its
`evaluation` object. -/
structure Evaluated where
  resume : Resume
  evaluation : EvalResult
deriving DecidableEq

/-- What `_load_progress` observes of the filesystem: existence of the
primary output file and of the temp file, and the result of `json.load` on
each (`none` = `json.JSONDecodeError`). -/
structure FSState where
  outputExists : Bool
  outputParse : Option (List Evaluated)
  tempExists : Bool
  tempParse : Option (List Evaluated)

/-- `[resume for resume in all_resumes if resume['id'] not in processed_ids]`. -/
def pendingOf (all : List Resume) (processed : List Evaluated) : List Resume :=
  all.filter (fun r => !(processed.map (fun p => p.resume.id)).contains r.id)

/-- `ResumeBatchProcessor._load_progress` (`judge_resumes.py`, identical in
`judge_resumes_simple.py` up to record payloads): if the output file exists,
try to parse it — on `JSONDecodeError` start from scratch; only `elif` the
output file does not exist is the temp file consulted, with the same
corruption fallback; otherwise everything is pending. -/
def load_progress (fs : FSState) (all : List Resume) : List Evaluated × List Resume :=
  if fs.outputExists then
    match fs.outputParse with
    | some processed => (processed, pendingOf all processed)
    | none => ([], all)
  else if fs.tempExists then
    match fs.tempParse with
    | some processed => (processed, pendingOf all processed)
    | none => ([], all)
  else ([], all)

/-- The result-collection loop of `ResumeBatchProcessor.process_resumes`
with persistence abstracted away: every pending item is submitted exactly
once to the pool, and completions arrive in some order (`order`, a
permutation of the pending list); each completion appends the item extended
with its evaluation to the processed list.  `evalFn` is what
`evaluate_multiple` returns for the item (an exception inside the worker is
itself converted to an error-marked evaluation, so every completion appends
exactly one entry). -/
def run_batch (processed : List Evaluated) (order : List Resume)
    (evalFn : Resume → EvalResult) : List Evaluated :=
  processed ++ order.map (fun r => ⟨r, evalFn r⟩)

/-- Checkpoint files on disk as `_save_progress` manipulates them. -/
structure Disk where
  temp : Option (List Evaluated)
  output : Option (List Evaluated)
deriving DecidableEq

/-- `ResumeBatchProcessor._save_progress`: the temp-file write is not inside
any `try`, so a failure there raises out of the method (`.error`); the
`os.replace` is inside `try/except`, so a rename failure only logs — the
temp file holds the new data and the primary output keeps its previous
contents; on success the temp file is moved onto the output path. -/
def save_progress (writeFails renameFails : Bool) (data : List Evaluated)
    (d : Disk) : Except Unit Disk :=
  if writeFails then .error ()
  else if renameFails then .ok ⟨some data, d.output⟩
  else .ok ⟨none, some data⟩

/-- The completion loop of `process_resumes` with persistence: after every
completion the full processed list is saved (in the `finally` block).  A
raised save error propagates out of the loop and aborts the run — the
remaining items are never collected; `.error` carries the disk as the
failed write left it (modelled as unchanged) and the in-memory list.
`writeFails i` / `renameFails i` say whether the `i`-th save cycle's
temp-file write / rename fails. -/
def runSaving (writeFails renameFails : ℕ → Bool) (evalFn : Resume → EvalResult) :
    List Resume → ℕ → List Evaluated → Disk →
      Except (Disk × List Evaluated) (Disk × List Evaluated)
  | [], _, acc, d => .ok (d, acc)
  | r :: rs, i, acc, d =>
    let acc' := acc ++ [⟨r, evalFn r⟩]
    match save_progress (writeFails i) (renameFails i) acc' d with
    | .error _ => .error (d, acc')
    | .ok d' => runSaving writeFails renameFails evalFn rs (i + 1) acc' d'

/-! Theorems about the embedded program. -/

/-- C10: `_extract_score` (simple judge) strips every non-digit character
and reads the remaining digits as one decimal number; it returns either
`None` (no digits, or that number exceeds 100) or the concatenated number,
which then lies in `[0, 100]` (in `ℕ`, so nonnegative by construction);
consequently `85/100` is rejected (digit concatenation 85100 > 100) and
`8.5` reads as 85. -/
theorem extract_score_concat_digits :
    (∀ (response : String) (n : ℕ), extract_score response = some n →
        n ≤ 100 ∧ n = natOfDigits (response.toList.filter Char.isDigit)) ∧
    (∀ response : String, extract_score response = none →
        response.toList.filter Char.isDigit = [] ∨
          100 < natOfDigits (response.toList.filter Char.isDigit)) ∧
    extract_score "85/100" = none ∧
    extract_score "8.5" = some 85 := by
  refine ⟨?_, ?_, by decide, by decide⟩
  · intro response n h
    simp only [extract_score] at h
    split at h
    · exact absurd h (by simp)
    · split at h
      · exact absurd h (by simp)
      · rename_i h1 h2
        have hn : natOfDigits (response.toList.filter Char.isDigit) = n := by
          simpa using h
        omega
  · intro response h
    simp only [extract_score] at h
    split at h
    · rename_i h1
      exact Or.inl (List.isEmpty_iff.mp h1)
    · split at h
      · rename_i h1 h2
        exact Or.inr h2
      · exact absurd h (by simp)

/-- Witness for C10 at the concrete inputs named by the claim. -/
theorem extract_score_concat_digits_witness :
    ((85 : ℕ) ≤ 100 ∧ (85 : ℕ) = natOfDigits ("8.5".toList.filter Char.isDigit)) ∧
    ("85/100".toList.filter Char.isDigit = [] ∨
      100 < natOfDigits ("85/100".toList.filter Char.isDigit)) :=
  ⟨extract_score_concat_digits.1 "8.5" 85 (by decide),
   extract_score_concat_digits.2.1 "85/100" (by decide)⟩

/-- C3 counterexample: on the sample list `[80, 85, 90]` the code's
aggregation (`statistics.stdev`) stores the sample standard deviation
`sqrt 25 = 5`, not the population value `sqrt (50 / 3) ≈ 4.08` the claim
names: the mean is `85` as claimed, but the stored deviation squared is
`25`, and `sqrt (50 / 3)` differs from the actual deviation `5`. -/
theorem sample_std_not_population_std :
    mean [(80 : ℚ), 85, 90] = 85 ∧
    sampleStdSq [(80 : ℚ), 85, 90] = 25 ∧
    Real.sqrt ((sampleStdSq [(80 : ℚ), 85, 90] : ℚ) : ℝ) = 5 ∧
    Real.sqrt ((50 : ℝ) / 3) ≠ 5 := by
  have hm : mean [(80 : ℚ), 85, 90] = 85 := by
    norm_num [mean, List.sum_cons, List.sum_nil]
  have hv : sampleStdSq [(80 : ℚ), 85, 90] = 25 := by
    norm_num [sampleStdSq, hm, List.sum_cons, List.sum_nil]
  refine ⟨hm, hv, ?_, ?_⟩
  · rw [hv]
    have h25 : ((25 : ℚ) : ℝ) = 5 ^ 2 := by norm_num
    rw [h25, Real.sqrt_sq (by norm_num : (0 : ℝ) ≤ 5)]
  · intro h
    have h0 : (0 : ℝ) ≤ 50 / 3 := by norm_num
    have hsq := Real.sq_sqrt h0
    rw [h] at hsq
    norm_num at hsq

/-- C3 amended: on `[80, 85, 90]` the aggregation produces mean `85.0` and
the sample standard deviation `sqrt (50 / (3 - 1)) = 5.0` (stored square
`25`), and every one-element sample list produces standard deviation `0`. -/
theorem aggregation_mean_and_sample_std :
    mean [(80 : ℚ), 85, 90] = 85 ∧
    sampleStdSq [(80 : ℚ), 85, 90] = 25 ∧
    Real.sqrt ((sampleStdSq [(80 : ℚ), 85, 90] : ℚ) : ℝ) = 5 ∧
    (∀ x : ℚ, sampleStdSq [x] = 0) := by
  have hm : mean [(80 : ℚ), 85, 90] = 85 := by
    norm_num [mean, List.sum_cons, List.sum_nil]
  have hv : sampleStdSq [(80 : ℚ), 85, 90] = 25 := by
    norm_num [sampleStdSq, hm, List.sum_cons, List.sum_nil]
  refine ⟨hm, hv, ?_, ?_⟩
  · rw [hv]
    have h25 : ((25 : ℚ) : ℝ) = 5 ^ 2 := by norm_num
    rw [h25, Real.sqrt_sq (by norm_num : (0 : ℝ) ≤ 5)]
  · intro x
    simp [sampleStdSq]

/-- Any score the per-metric scan of `_extract_scores` keeps passed both the
0–100 test and the per-metric maximum test. -/
theorem scanMetric_fst_le (kw : List Char) (maxS : ℕ) :
    ∀ lines s, (scanMetric kw maxS lines).1 = some s → s ≤ maxS ∧ s ≤ 100 := by
  intro lines
  induction lines with
  | nil => intro s h; simp [scanMetric] at h
  | cons l ls ih =>
    intro s h
    simp only [scanMetric] at h
    split at h
    · exact ih s h
    · split at h
      · exact ih s h
      · split at h
        · exact ih s h
        · rename_i score hm h100 hmax
          simp only [Prod.fst] at h
          have : score = s := by simpa using h
          subst this
          omega

/-- C4: every sample `_extract_scores` returns satisfies the declared
bounds (`0 ≤ capability ≤ 40`, `0 ≤ experience ≤ 40`, `0 ≤ potential ≤ 20`)
and has `total_score` exactly the sum of the three metrics; a response whose
metrics are only available out of bounds never reaches this point (the
extraction returns `None` instead, as encoded in the definition's missing /
invalid bookkeeping). -/
theorem extract_scores_bounds :
    ∀ (response : String) (s : Scores), extract_scores response = some s →
      (0 : ℤ) ≤ (s.capability : ℤ) ∧ s.capability ≤ 40 ∧
      (0 : ℤ) ≤ (s.experience : ℤ) ∧ s.experience ≤ 40 ∧
      (0 : ℤ) ≤ (s.potential : ℤ) ∧ s.potential ≤ 20 ∧
      s.total = s.capability + s.experience + s.potential := by
  intro response s h
  simp only [extract_scores] at h
  split at h
  · exact absurd h (by simp)
  · split at h
    · rename_i c e p hc he hp
      split at h
      · exact absurd h (by simp)
      · have hcb := scanMetric_fst_le kwCapability 40 (scoreLines response) c hc
        have heb := scanMetric_fst_le kwExperience 40 (scoreLines response) e he
        have hpb := scanMetric_fst_le kwPotential 20 (scoreLines response) p hp
        have hs : Scores.mk c e p (c + e + p) = s := by simpa using h
        subst hs
        exact ⟨Int.natCast_nonneg _, hcb.1, Int.natCast_nonneg _, heb.1,
          Int.natCast_nonneg _, hpb.1, rfl⟩
    · exact absurd h (by simp)

/-- Witness for C4: a concrete in-range response and its extracted sample. -/
theorem extract_scores_bounds_witness :
    (0 : ℤ) ≤ ((Scores.mk 35 30 15 80).capability : ℤ) ∧
    (Scores.mk 35 30 15 80).capability ≤ 40 ∧
    (0 : ℤ) ≤ ((Scores.mk 35 30 15 80).experience : ℤ) ∧
    (Scores.mk 35 30 15 80).experience ≤ 40 ∧
    (0 : ℤ) ≤ ((Scores.mk 35 30 15 80).potential : ℤ) ∧
    (Scores.mk 35 30 15 80).potential ≤ 20 ∧
    (Scores.mk 35 30 15 80).total =
      (Scores.mk 35 30 15 80).capability + (Scores.mk 35 30 15 80).experience +
        (Scores.mk 35 30 15 80).potential :=
  extract_scores_bounds "专业能力：35\n项目经验：30\n综合素质：15" ⟨35, 30, 15, 80⟩
    (by decide)

/-- A resume text covered by the C1 theorems: every required marker for a
campus technical position, nothing else — so no semantic section heading and
no quantifiable achievement occurs in it. -/
def heuristicFreeResume : String :=
  "{NAME}{AGE}{GENDER}{MARRIAGE}{HUKOU}{DISABILITY}{POLITICAL}"

/-- C1 counterexample: this resume passes the structural marker check but
fails the heuristic completeness check (missing-section issues and no
quantifiable-achievement pattern), yet `validate_resume` reports
`is_valid = True` and the generation session accepts it on the first
attempt (SUCCESS, one call) instead of transitioning to RETRY — refuting
the claimed "if and only if" with the heuristic check. -/
theorem valid_despite_failed_heuristic :
    (validate_resume heuristicFreeResume .BACKEND .CAMPUS_TECH).is_valid = true ∧
    heuristicPass heuristicFreeResume .BACKEND .CAMPUS_TECH = false ∧
    generate_resume (fun _ => some heuristicFreeResume) .BACKEND .CAMPUS_TECH =
      (.success heuristicFreeResume, 1) :=
  ⟨by decide, by decide, by decide⟩

/-- C1 amended: a generated resume is accepted as valid if and only if the
structural marker check passes (no required marker missing, no extraneous
marker present); the heuristic completeness check only contributes advisory
issues and never affects validity; the session succeeds exactly on a
structurally valid reply and otherwise transitions to RETRY (one more
recursive round with one more call). -/
theorem validate_structural_only :
    (∀ (content : String) (p : TechPosition) (rt : RecruitmentType),
        (validate_resume content p rt).is_valid = true ↔
          (missingTokens content rt = [] ∧ extraTokens content rt = [])) ∧
    (∀ (chat : ℕ → Option String) (p : TechPosition) (rt : RecruitmentType)
        (n i : ℕ) (c : String), chat i = some c →
        ((validate_resume c p rt).is_valid = true →
            generateResumeAux chat p rt (n + 1) i = (.success c, 1)) ∧
        ((validate_resume c p rt).is_valid = false →
            generateResumeAux chat p rt (n + 1) i =
              ((generateResumeAux chat p rt n (i + 1)).1,
                (generateResumeAux chat p rt n (i + 1)).2 + 1))) := by
  constructor
  · intro content p rt
    simp only [validate_resume, Bool.and_eq_true, List.isEmpty_iff]
  · intro chat p rt n i c hc
    constructor
    · intro hv
      simp [generateResumeAux, hc, hv]
    · intro hv
      simp [generateResumeAux, hc, hv]

/-- Witness for C1's amended theorem: a structurally valid reply makes the
session succeed on the first of five attempts. -/
theorem validate_structural_only_witness :
    generateResumeAux (fun _ => some heuristicFreeResume) .BACKEND .CAMPUS_TECH 5 0 =
      (.success heuristicFreeResume, 1) :=
  ((validate_structural_only.2 (fun _ => some heuristicFreeResume) .BACKEND
      .CAMPUS_TECH 4 0 heuristicFreeResume rfl).1 (by decide))

/-- Attempt `i` of a generation session cannot succeed: either the call
raises (oracle `none`) or the reply fails validation. -/
def failsAt (chat : ℕ → Option String) (p : TechPosition) (rt : RecruitmentType)
    (i : ℕ) : Prop :=
  ∀ c, chat i = some c → (validate_resume c p rt).is_valid = false

/-- If every attempt in the window fails, the session loop consumes its
whole fuel, performing exactly one `chat_completion` call per attempt. -/
theorem genAux_exhausts (chat : ℕ → Option String) (p : TechPosition)
    (rt : RecruitmentType) :
    ∀ n i, (∀ j, i ≤ j → j < i + n → failsAt chat p rt j) →
      generateResumeAux chat p rt n i = (.exhausted, n) := by
  intro n
  induction n with
  | zero => intro i _; rfl
  | succ m ih =>
    intro i h
    have hrec : generateResumeAux chat p rt m (i + 1) = (.exhausted, m) :=
      ih (i + 1) (fun j hj1 hj2 => h j (by omega) (by omega))
    cases hg : chat i with
    | none => simp [generateResumeAux, hg, hrec]
    | some c =>
      have hv := h i (le_refl i) (by omega) c hg
      simp [generateResumeAux, hg, hv, hrec]

/-- The session never performs more calls than its fuel allows. -/
theorem genAux_calls_le (chat : ℕ → Option String) (p : TechPosition)
    (rt : RecruitmentType) :
    ∀ n i, (generateResumeAux chat p rt n i).2 ≤ n := by
  intro n
  induction n with
  | zero => intro i; simp [generateResumeAux]
  | succ m ih =>
    intro i
    cases hg : chat i with
    | none =>
      have h2 : generateResumeAux chat p rt (m + 1) i =
          ((generateResumeAux chat p rt m (i + 1)).1,
            (generateResumeAux chat p rt m (i + 1)).2 + 1) := by
        simp [generateResumeAux, hg]
      rw [h2]
      have := ih (i + 1)
      omega
    | some c =>
      by_cases hv : (validate_resume c p rt).is_valid = true
      · have h2 : generateResumeAux chat p rt (m + 1) i = (.success c, 1) := by
          simp [generateResumeAux, hg, hv]
        rw [h2]
        exact Nat.succ_le_succ (Nat.zero_le m)
      · have h2 : generateResumeAux chat p rt (m + 1) i =
            ((generateResumeAux chat p rt m (i + 1)).1,
              (generateResumeAux chat p rt m (i + 1)).2 + 1) := by
          simp [generateResumeAux, hg, hv]
        rw [h2]
        have := ih (i + 1)
        omega

/-- The batch loop counts one success or one error per combination and
never stops early. -/
theorem batch_fold_counts {α : Type} (run : α → GenOutcome × ℕ) :
    ∀ (combos : List α) (a b : ℕ),
      (combos.foldl (batchStep run) (a, b)).1 +
        (combos.foldl (batchStep run) (a, b)).2 = a + b + combos.length := by
  intro combos
  induction combos with
  | nil => intro a b; simp
  | cons c cs ih =>
    intro a b
    simp only [List.foldl_cons, List.length_cons]
    cases hr : (run c).1 with
    | success s =>
      have h1 := ih (a + 1) b
      simp only [batchStep, hr]
      omega
    | exhausted =>
      have h1 := ih a (b + 1)
      simp only [batchStep, hr]
      omega

/-- C5: a session whose five attempts all fail (transport failure or
validation failure alike) performs exactly `max_attempts` generation calls
and terminates EXHAUSTED (the raised `ValueError`); no session ever
performs more than `max_attempts` calls; and the batch loop converts each
exhausted session into one per-item error while continuing through every
remaining combination (successes plus errors always exhaust the list). -/
theorem generation_attempt_budget :
    (∀ (chat : ℕ → Option String) (p : TechPosition) (rt : RecruitmentType),
        (∀ i, i < max_attempts → failsAt chat p rt i) →
        generate_resume chat p rt = (.exhausted, max_attempts)) ∧
    (∀ (chat : ℕ → Option String) (p : TechPosition) (rt : RecruitmentType),
        (generate_resume chat p rt).2 ≤ max_attempts) ∧
    (∀ (combos : List (TechPosition × RecruitmentType × SkillLevel))
        (run : TechPosition × RecruitmentType × SkillLevel → GenOutcome × ℕ),
        (batch_generate combos run).1 + (batch_generate combos run).2 =
          combos.length) := by
  refine ⟨?_, ?_, ?_⟩
  · intro chat p rt h
    exact genAux_exhausts chat p rt max_attempts 0 (fun j _ hj => h j (by omega))
  · intro chat p rt
    exact genAux_calls_le chat p rt max_attempts 0
  · intro combos run
    have h := batch_fold_counts run combos 0 0
    simpa [batch_generate] using h

/-- Witness for C5: an always-failing transport exhausts the budget. -/
theorem generation_attempt_budget_witness :
    generate_resume (fun _ => none) .ML .SPECIAL_EXPERT = (.exhausted, max_attempts) :=
  generation_attempt_budget.1 (fun _ => none) .ML .SPECIAL_EXPERT
    (fun _ _ _ hc => nomatch hc)

/-- C6: `evaluate_multiple` consults exactly the first K attempt outcomes
(K = `num_evaluations`, default 3); with zero valid samples it returns the
error-marked result, which no scored result equals; with at least one valid
sample it aggregates, per metric (total, capability, experience, potential),
the arithmetic mean of all valid samples and the sample standard deviation
(whose stored square is `Σ (x - mean)² / (n - 1)`), defined as `0` when
fewer than two valid samples exist. -/
theorem evaluate_multiple_aggregation :
    ∀ (sample : ℕ → Option Scores) (K : ℕ),
      (∀ sample' : ℕ → Option Scores, (∀ i, i < K → sample i = sample' i) →
          evaluate_multiple sample K = evaluate_multiple sample' K) ∧
      ((List.range K).filterMap sample = [] →
          evaluate_multiple sample K = .error) ∧
      (∀ t c e p, EvalResult.error ≠ EvalResult.stats t c e p) ∧
      (∀ v vs, (List.range K).filterMap sample = v :: vs →
          evaluate_multiple sample K =
            .stats (mkStats ((v :: vs).map (fun x => (x.total : ℚ))))
              (mkStats ((v :: vs).map (fun x => (x.capability : ℚ))))
              (mkStats ((v :: vs).map (fun x => (x.experience : ℚ))))
              (mkStats ((v :: vs).map (fun x => (x.potential : ℚ))))) ∧
      (∀ xs : List ℚ, (mkStats xs).mean = xs.sum / (xs.length : ℚ)) ∧
      (∀ x : ℚ, (mkStats [x]).stdSq = 0) ∧
      (∀ xs : List ℚ, 1 < xs.length →
          (mkStats xs).stdSq =
            (xs.map (fun y => (y - mean xs) ^ 2)).sum / ((xs.length : ℚ) - 1)) := by
  intro sample K
  refine ⟨?_, ?_, ?_, ?_, ?_, ?_, ?_⟩
  · intro sample' h
    have heq : (List.range K).filterMap sample = (List.range K).filterMap sample' :=
      List.filterMap_congr (fun x hx => h x (List.mem_range.mp hx))
    simp [evaluate_multiple, heq]
  · intro h
    simp [evaluate_multiple, h]
  · exact fun t c e p h => EvalResult.noConfusion h
  · intro v vs h
    simp [evaluate_multiple, h]
  · intro xs
    rfl
  · intro x
    simp [mkStats, sampleStdSq]
  · intro xs h
    simp [mkStats, sampleStdSq, h]

/-- Witness for C6: zero valid samples give the error marker; three valid
identical samples aggregate all four metrics. -/
theorem evaluate_multiple_aggregation_witness :
    evaluate_multiple (fun _ => none) 3 = .error ∧
    evaluate_multiple (fun _ => some ⟨35, 30, 15, 80⟩) 3 =
      .stats (mkStats [80, 80, 80]) (mkStats [35, 35, 35])
        (mkStats [30, 30, 30]) (mkStats [15, 15, 15]) := by
  constructor
  · exact (evaluate_multiple_aggregation (fun _ => none) 3).2.1 (by decide)
  · have h := (evaluate_multiple_aggregation (fun _ => some ⟨35, 30, 15, 80⟩) 3).2.2.2.1
      ⟨35, 30, 15, 80⟩ [⟨35, 30, 15, 80⟩, ⟨35, 30, 15, 80⟩] (by decide)
    simpa using h

/-- C8 counterexample: a response whose capability score (50) exceeds its
declared bound of 40 produces no sample, and with `max_retries = 3` the
retry loop of `evaluate_single` performs three generation calls for this
one sample — it does issue further generation calls after the out-of-range
extraction, refuting "discarded without being individually retried". -/
theorem range_error_sample_retried :
    extract_scores "专业能力：50\n项目经验：30\n综合素质：10" = none ∧
    evaluate_single (fun _ => some "专业能力：50\n项目经验：30\n综合素质：10") 3 =
      (none, 3) ∧
    (3 : ℕ) ≠ 1 :=
  ⟨by decide, by decide, by decide⟩

/-- If every attempt in the window fails, the `evaluate_single` loop
consumes its whole retry budget, one generation call per attempt, and
returns no sample. -/
theorem evalSingleAux_fails (gen : ℕ → Option String) :
    ∀ n i, (∀ j, i ≤ j → j < i + n → failedAttempt (gen j) = true) →
      evalSingleAux gen n i = (none, n) := by
  intro n
  induction n with
  | zero => intro i _; rfl
  | succ m ih =>
    intro i h
    have hrec : evalSingleAux gen m (i + 1) = (none, m) :=
      ih (i + 1) (fun j hj1 hj2 => h j (by omega) (by omega))
    have hi := h i (le_refl i) (by omega)
    cases hg : gen i with
    | none => simp [evalSingleAux, hg, hrec]
    | some r =>
      rw [hg] at hi
      simp only [failedAttempt, Bool.or_eq_true, decide_eq_true_eq] at hi
      by_cases hr : r = ""
      · simp [evalSingleAux, hg, hr, hrec]
      · have hext : extract_scores r = none := hi.resolve_left hr
        simp [evalSingleAux, hg, hr, hext, hrec]

/-- The retry loop never performs more generation calls than its budget. -/
theorem evalSingleAux_calls_le (gen : ℕ → Option String) :
    ∀ n i, (evalSingleAux gen n i).2 ≤ n := by
  intro n
  induction n with
  | zero => intro i; simp [evalSingleAux]
  | succ m ih =>
    intro i
    cases hg : gen i with
    | none =>
      have h2 : evalSingleAux gen (m + 1) i =
          ((evalSingleAux gen m (i + 1)).1, (evalSingleAux gen m (i + 1)).2 + 1) := by
        simp [evalSingleAux, hg]
      rw [h2]
      have := ih (i + 1)
      omega
    | some r =>
      by_cases hr : r = ""
      · have h2 : evalSingleAux gen (m + 1) i =
            ((evalSingleAux gen m (i + 1)).1, (evalSingleAux gen m (i + 1)).2 + 1) := by
          simp [evalSingleAux, hg, hr]
        rw [h2]
        have := ih (i + 1)
        omega
      · cases hx : extract_scores r with
        | some s =>
          have h2 : evalSingleAux gen (m + 1) i = (some s, 1) := by
            simp [evalSingleAux, hg, hr, hx]
          rw [h2]
          exact Nat.succ_le_succ (Nat.zero_le m)
        | none =>
          have h2 : evalSingleAux gen (m + 1) i =
              ((evalSingleAux gen m (i + 1)).1, (evalSingleAux gen m (i + 1)).2 + 1) := by
            simp [evalSingleAux, hg, hr, hx]
          rw [h2]
          have := ih (i + 1)
          omega

/-- C8 amended: a sample whose extraction fails — an out-of-bounds score
included — is retried inside `evaluate_single` itself: when every attempt
fails, the loop performs exactly `max_retries` generation calls before
giving the sample up (never more than `max_retries`), and only the
resulting empty sample set counts toward the insufficient-valid-samples
(error) outcome of the multi-sample aggregation. -/
theorem evaluate_single_retry_budget :
    (∀ (gen : ℕ → Option String) (m : ℕ),
        (∀ i, i < m → failedAttempt (gen i) = true) →
        evaluate_single gen m = (none, m)) ∧
    (∀ (gen : ℕ → Option String) (m : ℕ), (evaluate_single gen m).2 ≤ m) ∧
    (∀ (sample : ℕ → Option Scores) (K : ℕ),
        (∀ i, i < K → sample i = none) → evaluate_multiple sample K = .error) := by
  refine ⟨?_, ?_, ?_⟩
  · intro gen m h
    exact evalSingleAux_fails gen m 0 (fun j _ hj => h j (by omega))
  · intro gen m
    exact evalSingleAux_calls_le gen m 0
  · intro sample K h
    have heq : (List.range K).filterMap sample = [] := by
      rw [List.filterMap_eq_nil_iff]
      exact fun a ha => h a (List.mem_range.mp ha)
    simp [evaluate_multiple, heq]

/-- Witness for C8's amended theorem: an always-out-of-range response burns
the whole budget of 2, and all-failed sampling yields the error marker. -/
theorem evaluate_single_retry_budget_witness :
    evaluate_single (fun _ => some "专业能力：150") 2 = (none, 2) ∧
    evaluate_multiple (fun _ => none) 4 = .error :=
  ⟨evaluate_single_retry_budget.1 (fun _ => some "专业能力：150") 2 (fun _ _ => (by decide : failedAttempt (some "专业能力：150") = true)),
   evaluate_single_retry_budget.2.2 (fun _ => none) 4 (fun _ _ => rfl)⟩

/-- C2 counterexample: the primary output file exists but is unparsable,
while the temp file exists and parses to one entry that covers the only
input record.  The claim says the loader then attempts the temp file — that
would recover that entry — but the code's `elif` never consults the temp
file when the output file exists: it returns the empty baseline with
everything pending. -/
theorem temp_file_skipped_when_output_corrupt :
    load_progress ⟨true, none, true, some [⟨⟨1, "r"⟩, .error⟩]⟩ [⟨1, "r"⟩] =
      ([], [⟨1, "r"⟩]) ∧
    ([] : List Evaluated) ≠ [⟨⟨1, "r"⟩, .error⟩] :=
  ⟨rfl, fun h => List.noConfusion h⟩

/-- C2 amended: the loader reads the primary output file if it exists; a
parse failure there falls back directly to the empty baseline, the
write-ahead temp file being consulted only when the primary file does not
exist; an absent or unparsable temp file also yields the empty baseline;
every case returns a usable state (never fatal), with the pending items
computed from whichever snapshot was recovered. -/
theorem load_progress_fallback_order :
    (∀ (fs : FSState) (all : List Resume), fs.outputExists = true →
        fs.outputParse = none → load_progress fs all = ([], all)) ∧
    (∀ (fs : FSState) (all : List Resume) (ps : List Evaluated),
        fs.outputExists = true → fs.outputParse = some ps →
        load_progress fs all = (ps, pendingOf all ps)) ∧
    (∀ (fs : FSState) (all : List Resume) (ps : List Evaluated),
        fs.outputExists = false → fs.tempExists = true → fs.tempParse = some ps →
        load_progress fs all = (ps, pendingOf all ps)) ∧
    (∀ (fs : FSState) (all : List Resume), fs.outputExists = false →
        fs.tempExists = true → fs.tempParse = none →
        load_progress fs all = ([], all)) ∧
    (∀ (fs : FSState) (all : List Resume), fs.outputExists = false →
        fs.tempExists = false → load_progress fs all = ([], all)) := by
  refine ⟨?_, ?_, ?_, ?_, ?_⟩
  · intro fs all h1 h2; simp [load_progress, h1, h2]
  · intro fs all ps h1 h2; simp [load_progress, h1, h2]
  · intro fs all ps h1 h2 h3; simp [load_progress, h1, h2, h3]
  · intro fs all h1 h2 h3; simp [load_progress, h1, h2, h3]
  · intro fs all h1 h2; simp [load_progress, h1, h2]

/-- Witness for C2's amended theorem: a corrupt primary gives the empty
baseline; with no primary, a parseable temp file is recovered. -/
theorem load_progress_fallback_order_witness :
    load_progress ⟨true, none, false, none⟩ [⟨2, "s"⟩] = ([], [⟨2, "s"⟩]) ∧
    load_progress ⟨false, none, true, some []⟩ [⟨2, "s"⟩] =
      ([], pendingOf [⟨2, "s"⟩] []) :=
  ⟨load_progress_fallback_order.1 ⟨true, none, false, none⟩ [⟨2, "s"⟩] rfl rfl,
   load_progress_fallback_order.2.2.1 ⟨false, none, true, some []⟩ [⟨2, "s"⟩] []
     rfl rfl rfl⟩

/-- A nodup list filtered to membership in a nodup sublist-set has exactly
that set's length. -/
theorem filter_mem_length {A I : List ℕ} (hA : A.Nodup) (hI : I.Nodup)
    (hsub : ∀ x ∈ I, x ∈ A) :
    (A.filter (fun x => decide (x ∈ I))).length = I.length := by
  have hnd : (A.filter (fun x => decide (x ∈ I))).Nodup := hA.filter _
  have hmem : ∀ x, x ∈ A.filter (fun x => decide (x ∈ I)) ↔ x ∈ I := by
    intro x
    rw [List.mem_filter]
    simp only [decide_eq_true_eq]
    exact ⟨fun h => h.2, fun h => ⟨hsub x h, h⟩⟩
  have hperm : (A.filter (fun x => decide (x ∈ I))).Perm I := by
    rw [List.perm_iff_count]
    intro a
    by_cases ha : a ∈ I
    · rw [List.count_eq_one_of_mem hnd ((hmem a).mpr ha),
        List.count_eq_one_of_mem hI ha]
    · rw [List.count_eq_zero.mpr (fun h => ha ((hmem a).mp h)),
        List.count_eq_zero.mpr ha]
  exact hperm.length_eq

/-- The checkpointed-id filter of the input list keeps exactly one record
per checkpointed id. -/
theorem length_filter_checkpointed {A : List Resume} {I : List ℕ}
    (hA : (A.map Resume.id).Nodup) (hI : I.Nodup)
    (hsub : ∀ x ∈ I, x ∈ A.map Resume.id) :
    (A.filter (fun r => I.contains r.id)).length = I.length := by
  have hmap : (A.map Resume.id).filter (fun x => I.contains x) =
      (A.filter ((fun x : ℕ => I.contains x) ∘ Resume.id)).map Resume.id :=
    List.filter_map Resume.id A
  have hconv : (fun x : ℕ => I.contains x) = (fun x : ℕ => decide (x ∈ I)) := by
    funext x
    exact List.elem_eq_mem x I
  calc (A.filter (fun r => I.contains r.id)).length
      = ((A.filter (fun r => I.contains r.id)).map Resume.id).length :=
        (List.length_map _ _).symm
    _ = ((A.map Resume.id).filter (fun x => I.contains x)).length := by
        rw [hmap]
        rfl
    _ = I.length := by rw [hconv]; exact filter_mem_length hA hI hsub

/-- C7: with N input records of unique ids, M of them checkpointed (unique
checkpoint ids drawn from the input), a restart recovers the checkpoint,
submits exactly the N − M non-checkpointed records (none of the
checkpointed ones, all of the others), and — whatever completion order the
pool produces — the final snapshot carries the M checkpointed entries
unchanged as its prefix, has exactly N entries, and its ids are unique. -/
theorem restart_processes_exactly_pending :
    ∀ (all : List Resume) (cp : List Evaluated) (evalFn : Resume → EvalResult)
      (order : List Resume),
      (all.map Resume.id).Nodup →
      (cp.map (fun p => p.resume.id)).Nodup →
      (∀ p ∈ cp, p.resume.id ∈ all.map Resume.id) →
      order.Perm (pendingOf all cp) →
      load_progress ⟨true, some cp, false, none⟩ all = (cp, pendingOf all cp) ∧
      (pendingOf all cp).length + cp.length = all.length ∧
      (∀ r ∈ pendingOf all cp, r.id ∉ cp.map (fun p => p.resume.id)) ∧
      (∀ r ∈ all, r.id ∉ cp.map (fun p => p.resume.id) → r ∈ pendingOf all cp) ∧
      (run_batch cp order evalFn).length = all.length ∧
      ((run_batch cp order evalFn).map (fun p => p.resume.id)).Nodup ∧
      (run_batch cp order evalFn).take cp.length = cp := by
  intro all cp evalFn order hA hI hsub hperm
  have hcount : (pendingOf all cp).length + cp.length = all.length := by
    have hsplit :=
      (List.filter_append_perm
        (fun r => (cp.map (fun p => p.resume.id)).contains r.id) all).length_eq
    rw [List.length_append] at hsplit
    have hkept :
        (all.filter (fun r => (cp.map (fun p => p.resume.id)).contains r.id)).length =
          (cp.map (fun p => p.resume.id)).length := by
      refine length_filter_checkpointed hA hI ?_
      intro x hx
      obtain ⟨p, hp, rfl⟩ := List.mem_map.mp hx
      exact hsub p hp
    have hpend : pendingOf all cp =
        all.filter (fun x =>
          !((fun r => (cp.map (fun p => p.resume.id)).contains r.id) x)) := rfl
    rw [← hpend, hkept, List.length_map] at hsplit
    omega
  have hnotin : ∀ r ∈ pendingOf all cp, r.id ∉ cp.map (fun p => p.resume.id) := by
    intro r hr
    have := (List.mem_filter.mp hr).2
    simp only [Bool.not_eq_true'] at this
    intro hmem
    have hc : (cp.map (fun p => p.resume.id)).contains r.id = true := by
      simp only [List.elem_eq_mem]
      exact decide_eq_true hmem
    rw [hc] at this
    exact Bool.noConfusion this
  have hin : ∀ r ∈ all, r.id ∉ cp.map (fun p => p.resume.id) →
      r ∈ pendingOf all cp := by
    intro r hr hnm
    refine List.mem_filter.mpr ⟨hr, ?_⟩
    simp only [Bool.not_eq_true']
    simp only [List.elem_eq_mem]
    exact decide_eq_false hnm
  have hordlen : order.length = (pendingOf all cp).length := hperm.length_eq
  have hids : (run_batch cp order evalFn).map (fun p => p.resume.id) =
      cp.map (fun p => p.resume.id) ++ order.map Resume.id := by
    simp only [run_batch, List.map_append, List.map_map]
    rfl
  refine ⟨rfl, hcount, hnotin, hin, ?_, ?_, ?_⟩
  · simp only [run_batch, List.length_append, List.length_map]
    omega
  · rw [hids]
    have hpendids : ((pendingOf all cp).map Resume.id).Nodup :=
      ((List.filter_sublist _).map Resume.id).nodup hA
    have hordids : (order.map Resume.id).Nodup :=
      ((hperm.map Resume.id).nodup_iff).mpr hpendids
    refine List.Nodup.append hI hordids ?_
    intro x hx hx2
    obtain ⟨r, hr, rfl⟩ := List.mem_map.mp hx2
    have hrp : r ∈ pendingOf all cp := hperm.mem_iff.mp hr
    exact hnotin r hrp hx
  · simp only [run_batch]
    exact List.take_left cp (order.map fun r => ⟨r, evalFn r⟩)

/-- Inputs of the C7 witness: two records, the first checkpointed. -/
def c7all : List Resume := [⟨1, "a"⟩, ⟨2, "b"⟩]

def c7cp : List Evaluated := [⟨⟨1, "a"⟩, .error⟩]

/-- Witness for C7: two inputs, one already checkpointed, the other
completing; the final snapshot keeps the carried-over entry first. -/
theorem restart_processes_exactly_pending_witness :
    load_progress ⟨true, some c7cp, false, none⟩ c7all = (c7cp, pendingOf c7all c7cp) ∧
    (pendingOf c7all c7cp).length + c7cp.length = c7all.length ∧
    (∀ r ∈ pendingOf c7all c7cp,
        r.id ∉ c7cp.map (fun p => p.resume.id)) ∧
    (∀ r ∈ c7all, r.id ∉ c7cp.map (fun p => p.resume.id) →
        r ∈ pendingOf c7all c7cp) ∧
    (run_batch c7cp [⟨2, "b"⟩] (fun _ => .error)).length = c7all.length ∧
    ((run_batch c7cp [⟨2, "b"⟩] (fun _ => .error)).map
        (fun p => p.resume.id)).Nodup ∧
    (run_batch c7cp [⟨2, "b"⟩] (fun _ => .error)).take c7cp.length = c7cp :=
  restart_processes_exactly_pending c7all c7cp (fun _ => .error) [⟨2, "b"⟩]
    (by decide) (by decide) (by decide) (List.Perm.refl _)

/-- C9 counterexample: on a three-item run whose second save cycle fails at
the temp-file write (outside any `try`), the exception propagates: the run
aborts as an error carrying the disk exactly as the first cycle committed
it, the third item never processed — refuting "a persistence failure …
never aborts the batch run" for the write half.  (The rename half is
covered by the amended theorem.) -/
theorem temp_write_failure_aborts :
    runSaving (fun i => i == 1) (fun _ => false) (fun _ => .error)
        [⟨1, "a"⟩, ⟨2, "b"⟩, ⟨3, "c"⟩] 0 [] ⟨none, none⟩ =
      .error (⟨none, some [⟨⟨1, "a"⟩, .error⟩]⟩,
        [⟨⟨1, "a"⟩, .error⟩, ⟨⟨2, "b"⟩, .error⟩]) ∧
    (∀ (x y : Disk × List Evaluated),
        (Except.error x : Except (Disk × List Evaluated) (Disk × List Evaluated)) ≠
          .ok y) :=
  ⟨rfl, fun _ _ h => Except.noConfusion h⟩

/-- C9 amended: a rename/replace failure alone never aborts the run — with
the temp-file writes succeeding, every item is processed and appended no
matter which cycles' renames fail; a failing rename leaves the previously
committed primary snapshot untouched (only the temp file holds the new
data), and the next successful cycle commits the full accumulated snapshot;
a temp-file write failure, by contrast, aborts the run. -/
theorem rename_failure_never_aborts :
    (∀ (renameFails : ℕ → Bool) (evalFn : Resume → EvalResult) (rs : List Resume)
        (i : ℕ) (acc : List Evaluated) (d : Disk),
        ∃ d', runSaving (fun _ => false) renameFails evalFn rs i acc d =
          .ok (d', acc ++ rs.map (fun r => ⟨r, evalFn r⟩))) ∧
    (∀ (data : List Evaluated) (d : Disk),
        save_progress false true data d = .ok ⟨some data, d.output⟩) ∧
    (∀ (data : List Evaluated) (d : Disk),
        save_progress false false data d = .ok ⟨none, some data⟩) := by
  refine ⟨?_, fun data d => rfl, fun data d => rfl⟩
  intro renameFails evalFn rs
  induction rs with
  | nil =>
    intro i acc d
    exact ⟨d, by simp [runSaving]⟩
  | cons r rs ih =>
    intro i acc d
    cases hb : renameFails i with
    | false =>
      obtain ⟨d', hd'⟩ := ih (i + 1) (acc ++ [⟨r, evalFn r⟩]) ⟨none, some (acc ++ [⟨r, evalFn r⟩])⟩
      refine ⟨d', ?_⟩
      simp only [runSaving, save_progress, hb, if_false, Bool.false_eq_true]
      rw [hd']
      simp
    | true =>
      obtain ⟨d', hd'⟩ := ih (i + 1) (acc ++ [⟨r, evalFn r⟩]) ⟨some (acc ++ [⟨r, evalFn r⟩]), d.output⟩
      refine ⟨d', ?_⟩
      simp only [runSaving, save_progress, hb, if_false, Bool.false_eq_true, if_true]
      rw [hd']
      simp

end FairCV
